import Mathlib

/-!
Verification of the `curlthis` parse/format pipeline.

We give a shallow embedding of `src/curlthis/parser.py`
(`alakazam_parse_request`) and `src/curlthis/formatter.py`
(`kadabra_format_curl`) and prove the specified properties about them.
Python strings are modelled as Lean `String`s; the Python string
operations used by the code (`strip`, `split`, `upper`, `lower`,
`startswith`, dict insertion) are embedded as executable functions on
`List Char` with `String` wrappers.  `shlex.quote` and `json.loads`
(acceptance only) from the Python standard library are modelled after
their CPython implementations.
-/

/-! ## Python string primitives -/

/-- The ASCII whitespace characters recognised by Python's `str.strip`
and `str.split()` (space, tab, newline, carriage return, vertical tab,
form feed). -/
def pyIsSpace (c : Char) : Bool :=
  c = ' ' || c = '\t' || c = '\n' || c = '\x0d' || c = '\x0b' || c = '\x0c'

/-- Python `str.strip()` on the underlying character list. -/
def pyStripList (l : List Char) : List Char :=
  ((l.dropWhile pyIsSpace).reverse.dropWhile pyIsSpace).reverse

/-- Python `str.strip()`. -/
def pyStrip (s : String) : String := ⟨pyStripList s.data⟩

/-- Python `str.upper()` (ASCII). -/
def pyUpper (s : String) : String := ⟨s.data.map Char.toUpper⟩

/-- Python `str.lower()` (ASCII). -/
def pyLower (s : String) : String := ⟨s.data.map Char.toLower⟩

/-- Python `str.split(sep)` for a one-character separator: split at every
occurrence, keeping empty pieces.  The result is always non-empty. -/
def splitOnChar (c : Char) : List Char → List (List Char)
  | [] => [[]]
  | x :: xs =>
    if x = c then [] :: splitOnChar c xs
    else
      match splitOnChar c xs with
      | [] => [[x]]
      | y :: ys => (x :: y) :: ys

/-- Accumulator worker for `splitWS`. -/
def splitWSAux : List Char → List Char → List (List Char)
  | [], acc => if acc.isEmpty then [] else [acc.reverse]
  | c :: cs, acc =>
    if pyIsSpace c then
      if acc.isEmpty then splitWSAux cs [] else acc.reverse :: splitWSAux cs []
    else splitWSAux cs (c :: acc)

/-- Python `str.split()` with no argument: split on runs of whitespace,
dropping empty pieces. -/
def splitWS (l : List Char) : List (List Char) := splitWSAux l []

/-- Python `str.split(c, 1)`: split at the first occurrence of `c`.
Returns `none` when `c` does not occur (Python would return a
single-element list). -/
def splitFirst (c : Char) : List Char → Option (List Char × List Char)
  | [] => none
  | x :: xs =>
    if x = c then some ([], xs)
    else (splitFirst c xs).map (fun p => (x :: p.1, p.2))

/-- Python `str.startswith(p)` as list membership of the pattern at the
front. -/
def pyStartsWith (s pat : String) : Bool := pat.data.isPrefixOf s.data

/-- Truthiness of an optional Python string (`None` and `""` are falsy). -/
def pyTruthy (o : Option String) : Bool := o.getD "" ≠ ""

/-- Python `sep.join(parts)`. -/
def pyJoin (sep : String) : List String → String
  | [] => ""
  | [a] => a
  | a :: b :: rest => a ++ sep ++ pyJoin sep (b :: rest)

/-! ## `shlex.quote` (CPython model) -/

/-- Characters that never require quoting, per CPython's
`shlex._find_unsafe` regex (ASCII word characters plus
`@` `%` `+` `=` `:` `,` `.` `/` `-`). -/
def shlexSafe (c : Char) : Bool :=
  c.isAlphanum || c = '_' || c = '@' || c = '%' || c = '+' || c = '=' ||
  c = ':' || c = ',' || c = '.' || c = '/' || c = '-'

/-- The character expansion performed by
`s.replace("'", "'\"'\"'")` inside `shlex.quote`. -/
def shlexEscChar (c : Char) : List Char :=
  if c = '\'' then ['\'', '"', '\'', '"', '\''] else [c]

/-- CPython's `shlex.quote`: the empty string becomes `''`; a string of
safe characters is returned unchanged; otherwise the string is wrapped
in single quotes with every embedded single quote rewritten. -/
def shlexQuote (s : String) : String :=
  if s = "" then "''"
  else if s.data.all shlexSafe then s
  else ⟨'\'' :: (s.data.foldr (fun c acc => shlexEscChar c ++ acc) ['\''])⟩

/-! ## `json.loads` acceptance (CPython model)

`kadabra_format_curl` only uses `json.loads` to test whether the body
parses as JSON.  We model acceptance with a fuel-indexed recursive
descent checker following CPython's `json` scanner: a JSON document is
optional whitespace around a single value; values are objects, arrays,
strings, numbers, `true`, `false`, `null`, and (CPython extensions)
`NaN`, `Infinity`, `-Infinity`. -/

/-- JSON structural whitespace (` \t\n\r`). -/
def jsonWS (c : Char) : Bool := c = ' ' || c = '\t' || c = '\n' || c = '\x0d'

def jsonSkipWS (l : List Char) : List Char := l.dropWhile jsonWS

def isHexDigit (c : Char) : Bool :=
  c.isDigit || ('a' ≤ c && c ≤ 'f') || ('A' ≤ c && c ≤ 'F')

/-- Consume a JSON string body after the opening quote; `none` on
malformed input. -/
def jsonStringRest : List Char → Option (List Char)
  | [] => none
  | c :: cs =>
    if c = '"' then some cs
    else if c = '\\' then
      match cs with
      | [] => none
      | e :: cs' =>
        if e = '"' || e = '\\' || e = '/' || e = 'b' || e = 'f' || e = 'n' ||
           e = 'r' || e = 't' then jsonStringRest cs'
        else if e = 'u' then
          match cs' with
          | h1 :: h2 :: h3 :: h4 :: cs'' =>
            if isHexDigit h1 && isHexDigit h2 && isHexDigit h3 && isHexDigit h4
            then jsonStringRest cs'' else none
          | _ => none
        else none
    else if c.toNat < 0x20 then none
    else jsonStringRest cs

/-- Consume the digits/exponent part of a JSON number after an optional
leading minus: `(0|[1-9][0-9]*)(\.[0-9]+)?([eE][+-]?[0-9]+)?`. -/
def jsonNumberRest (l : List Char) : Option (List Char) :=
  match l with
  | [] => none
  | d :: ds =>
    if ¬ d.isDigit then none
    else
      let rest := if d = '0' then ds else ds.dropWhile Char.isDigit
      let rest :=
        match rest with
        | '.' :: r =>
          match r.dropWhile Char.isDigit with
          | r' => if (r.takeWhile Char.isDigit).isEmpty then none else some r'
        | _ => some rest
      match rest with
      | none => none
      | some r =>
        match r with
        | e :: r' =>
          if e = 'e' || e = 'E' then
            let r'' := match r' with
                       | s :: r'' => if s = '+' || s = '-' then r'' else r'
                       | [] => []
            if (r''.takeWhile Char.isDigit).isEmpty then none
            else some (r''.dropWhile Char.isDigit)
          else some r
        | [] => some r

/-- Parsing modes for the fuel-indexed JSON checker: a value, the inside
of an object (after `{` / after a `,`), the inside of an array. -/
inductive JMode where
  | val
  | objRest
  | arrRest
deriving Repr, DecidableEq

/-- Fuel-indexed JSON recursive descent: consume one production in the
given mode, returning the unconsumed characters. -/
def jsonP : Nat → JMode → List Char → Option (List Char)
  | 0, _, _ => none
  | fuel + 1, .val, l =>
    match jsonSkipWS l with
    | [] => none
    | c :: cs =>
      if c = '{' then
        match jsonSkipWS cs with
        | '}' :: cs' => some cs'
        | _ => jsonP fuel .objRest cs
      else if c = '[' then
        match jsonSkipWS cs with
        | ']' :: cs' => some cs'
        | _ => jsonP fuel .arrRest cs
      else if c = '"' then jsonStringRest cs
      else if c = 't' then
        match cs with
        | 'r' :: 'u' :: 'e' :: cs' => some cs'
        | _ => none
      else if c = 'f' then
        match cs with
        | 'a' :: 'l' :: 's' :: 'e' :: cs' => some cs'
        | _ => none
      else if c = 'n' then
        match cs with
        | 'u' :: 'l' :: 'l' :: cs' => some cs'
        | _ => none
      else if c = 'N' then
        match cs with
        | 'a' :: 'N' :: cs' => some cs'
        | _ => none
      else if c = 'I' then
        match cs with
        | 'n' :: 'f' :: 'i' :: 'n' :: 'i' :: 't' :: 'y' :: cs' => some cs'
        | _ => none
      else if c = '-' then
        match cs with
        | 'I' :: 'n' :: 'f' :: 'i' :: 'n' :: 'i' :: 't' :: 'y' :: cs' => some cs'
        | _ => jsonNumberRest cs
      else jsonNumberRest (c :: cs)
  | fuel + 1, .objRest, l =>
    match jsonSkipWS l with
    | '"' :: cs =>
      match jsonStringRest cs with
      | none => none
      | some afterKey =>
        match jsonSkipWS afterKey with
        | ':' :: afterColon =>
          match jsonP fuel .val afterColon with
          | none => none
          | some afterVal =>
            match jsonSkipWS afterVal with
            | ',' :: cs' => jsonP fuel .objRest cs'
            | '}' :: cs' => some cs'
            | _ => none
        | _ => none
    | _ => none
  | fuel + 1, .arrRest, l =>
    match jsonP fuel .val l with
    | none => none
    | some afterVal =>
      match jsonSkipWS afterVal with
      | ',' :: cs' => jsonP fuel .arrRest cs'
      | ']' :: cs' => some cs'
      | _ => none

/-- Model of `json.loads(s)` succeeding: one JSON value surrounded by
optional whitespace, nothing left over. -/
def pyJsonValid (s : String) : Bool :=
  match jsonP (4 * s.data.length + 8) .val s.data with
  | some rest => (jsonSkipWS rest).isEmpty
  | none => false

/-! ## Data model

The Python code passes a plain `dict` from parser to formatter.  We
model it as a record of optional fields:  a missing dictionary key is
`none`.  `headers` is an insertion-ordered mapping (Python `dict`),
modelled as an association list without duplicate keys. -/

/-- The request record produced by `alakazam_parse_request` and consumed
by `kadabra_format_curl` (`method`/`url`/`headers`/`body` always present
in parser output; `cookies`/`proxy` only when truthy; `cookie_jar` only
ever CLI-supplied). -/
structure RequestData where
  method : Option String := none
  url : Option String := none
  headers : List (String × String) := []
  body : Option String := none
  cookies : Option String := none
  proxy : Option String := none
  cookie_jar : Option String := none
deriving Repr, DecidableEq

/-- Python `dict` assignment `d[k] = v`: update the value in place at the
key's existing position, or append a new entry. -/
def dictInsert (k v : String) : List (String × String) → List (String × String)
  | [] => [(k, v)]
  | (k', v') :: rest =>
    if k' = k then (k, v) :: rest else (k', v') :: dictInsert k v rest

/-! ## Parser (`alakazam_parse_request`) -/

/-- The parser's failure taxonomy (raised as `ValueError` in Python),
carrying the dynamic parts of the messages where a claim needs them. -/
inductive ParseError where
  | EmptyInput
  | MalformedRequestLine (request_line : String)
  | InvalidMethod (msg : String)
  | MissingHost
deriving Repr, DecidableEq

/-- The method allow-list (`VALID_METHODS` in the source). -/
def VALID_METHODS : List String :=
  ["GET", "POST", "PUT", "DELETE", "PATCH", "OPTIONS", "HEAD", "TRACE", "CONNECT"]

/-- The `InvalidMethod` error message: names the offending method and
enumerates `sorted(VALID_METHODS)`. -/
def invalidMethodMsg (method : String) : String :=
  "Invalid HTTP method: '" ++ method ++ "'\n" ++
  "Supported methods: CONNECT, DELETE, GET, HEAD, OPTIONS, PATCH, POST, PUT, TRACE\n" ++
  "Did you mean one of: GET, POST, PUT, PATCH, DELETE?"

/-- Accumulator for the header-scanning loop: the headers dict plus the
special-header variables `host`, `cookies`, `proxy`. -/
structure ScanState where
  headers : List (String × String) := []
  host : Option String := none
  cookies : Option String := none
  proxy : Option String := none
deriving Repr, DecidableEq

/-- The header loop of `alakazam_parse_request` (lines 70-89): scan lines
until the first blank one, recording each colon-containing line in the
dict and in the special variables; returns the final state and the lines
after the blank separator (the body section). -/
def scanHeaders : List String → ScanState → ScanState × List String
  | [], st => (st, [])
  | line :: rest, st =>
    if pyStrip line = "" then (st, rest)
    else
      match splitFirst ':' line.data with
      | none => scanHeaders rest st
      | some (k, v) =>
        let key := pyStrip ⟨k⟩
        let value := pyStrip ⟨v⟩
        let hs := dictInsert key value st.headers
        let lk := pyLower key
        let st' :=
          if lk = "host" then
            { st with headers := hs, host := some value }
          else if lk = "cookie" then
            { st with headers := hs, cookies := some value }
          else if lk = "proxy-connection" || lk = "x-forwarded-for" then
            { st with headers := hs, proxy := some value }
          else { st with headers := hs }
        scanHeaders rest st'

/-- `lines = raw_request.strip().split('\n')`. -/
def linesOf (raw_request : String) : List String :=
  (splitOnChar '\n' (pyStripList raw_request.data)).map (fun l => (⟨l⟩ : String))

/-- Shallow embedding of `alakazam_parse_request` (parser.py lines
10-129). -/
def alakazam_parse_request (raw_request : String) : Except ParseError RequestData :=
  let lines := linesOf raw_request
  if lines.isEmpty || pyStrip (lines.headD "") = "" then
    .error .EmptyInput
  else
    let request_line := pyStrip (lines.headD "")
    let parts := (splitWS request_line.data).map (fun l => (⟨l⟩ : String))
    if parts.length < 2 then
      .error (.MalformedRequestLine request_line)
    else
      let method := pyUpper (parts.headD "")
      let path := (parts.drop 1).headD ""
      if method ∉ VALID_METHODS then
        .error (.InvalidMethod (invalidMethodMsg method))
      else
        let scanned := scanHeaders (lines.drop 1) {}
        let st := scanned.1
        let bodyLines := scanned.2
        if ¬ pyTruthy st.host then
          .error .MissingHost
        else
          let body_content := pyJoin "\n" bodyLines
          let body := if pyStrip body_content ≠ "" then some body_content else none
          let host := st.host.getD ""
          let url := host ++ path
          let url :=
            if pyStartsWith url "http://" || pyStartsWith url "https://" then url
            else "https://" ++ url
          .ok { method := some method
                url := some url
                headers := st.headers
                body := body
                cookies := if pyTruthy st.cookies then st.cookies else none
                proxy := if pyTruthy st.proxy then st.proxy else none
                cookie_jar := none }

/-! ## Formatter (`kadabra_format_curl`)

The Python function appends token strings to `curl_parts` in a fixed
order and joins them with single spaces.  Each appending step is
embedded as its own part-list function. -/

/-- The `MissingURL` error message (formatter.py lines 31-34). -/
def missingURLMsg : String :=
  "Missing URL in request data. Cannot generate curl command without a URL."

/-- Step 3: `--proxy <escaped>` when `proxy` is truthy. -/
def proxyParts (r : RequestData) : List String :=
  if pyTruthy r.proxy then ["--proxy " ++ shlexQuote (r.proxy.getD "")] else []

/-- Step 4: one `-H <escaped "Name: value">` per header, skipping
case-insensitive `host` and `cookie`. -/
def headerParts (hs : List (String × String)) : List String :=
  hs.filterMap (fun kv =>
    if pyLower kv.1 = "host" ∨ pyLower kv.1 = "cookie" then none
    else some ("-H " ++ shlexQuote (kv.1 ++ ": " ++ kv.2)))

/-- Step 5: `--cookie <escaped>` when `cookies` is truthy. -/
def cookieParts (r : RequestData) : List String :=
  if pyTruthy r.cookies then ["--cookie " ++ shlexQuote (r.cookies.getD "")] else []

/-- Step 6: `--cookie-jar <escaped>` when `cookie_jar` is truthy. -/
def cookieJarParts (r : RequestData) : List String :=
  if pyTruthy r.cookie_jar then ["--cookie-jar " ++ shlexQuote (r.cookie_jar.getD "")] else []

/-- The HTTP start-line guard list (formatter.py line 80). -/
def http_prefixes : List String :=
  ["GET ", "POST ", "PUT ", "DELETE ", "PATCH ", "HEAD ", "OPTIONS ", "TRACE ",
   "CONNECT ", "HTTP/"]

/-- Step 7 (formatter.py lines 77-91): emit the body as `-d` (valid
JSON) or `--data-raw` (anything else), unless it is missing, whitespace,
or looks like the start of another raw HTTP request. -/
def bodyParts (r : RequestData) : List String :=
  let body := r.body.getD ""
  if pyTruthy r.body ∧ pyStrip body ≠ "" then
    if ¬ (http_prefixes.any (fun p => pyStartsWith (pyStrip body) p)) then
      if pyJsonValid body then ["-d " ++ shlexQuote body]
      else ["--data-raw " ++ shlexQuote body]
    else []
  else []

/-- The full `curl_parts` list, in the source's append order: method,
url, proxy, headers, cookies, cookie jar, body. -/
def curlParts (r : RequestData) : List String :=
  ["curl -X " ++ r.method.getD "GET", shlexQuote (r.url.getD "")]
  ++ proxyParts r ++ headerParts r.headers ++ cookieParts r
  ++ cookieJarParts r ++ bodyParts r

/-- Shallow embedding of `kadabra_format_curl` (formatter.py lines
12-94): validate the URL then join `curl_parts` with single spaces. -/
def kadabra_format_curl (request_data : RequestData) : Except String String :=
  if ¬ pyTruthy request_data.url then .error missingURLMsg
  else .ok (pyJoin " " (curlParts request_data))

deriving instance DecidableEq for Except

/-! ## Specification-side observations

These definitions restate, independently of the parser's scanning loop,
which data the input contains: the request-line tokens, the header
section (the lines before the first blank line), the key/value pairs it
yields, and the `Host` values among them.  The claims are stated
against these observations and proved against the embedded code. -/

/-- The request-line tokens: the first line of the trimmed input, split
on whitespace. -/
def partsOf (raw : String) : List String :=
  (splitWS (pyStrip ((linesOf raw).headD "")).data).map (fun l => (⟨l⟩ : String))

/-- The header section: the lines before the first blank line. -/
def headerSection (ls : List String) : List String :=
  ls.takeWhile (fun l => pyStrip l ≠ "")

/-- The `(name, value)` pairs of the header section, in order of
appearance: every line containing a colon, split at the first colon,
both sides trimmed. -/
def headerPairsOf (ls : List String) : List (String × String) :=
  (headerSection ls).filterMap (fun l =>
    (splitFirst ':' l.data).map (fun p => (pyStrip ⟨p.1⟩, pyStrip ⟨p.2⟩)))

/-- The header pairs of a raw request (header lines follow the request
line). -/
def requestHeaderPairs (raw : String) : List (String × String) :=
  headerPairsOf ((linesOf raw).drop 1)

/-- The values of the case-insensitive `Host` headers, in order. -/
def hostVals (ls : List String) : List String :=
  (headerPairsOf ls).filterMap (fun kv =>
    if pyLower kv.1 = "host" then some kv.2 else none)

/-- First-match lookup in an association list (how a Python dict is
read). -/
def lookupList (k : String) : List (String × String) → Option String
  | [] => none
  | kv :: rest => if kv.1 = k then some kv.2 else lookupList k rest

/-- The distinct elements of a list in order of first appearance,
skipping those already in `seen`. -/
def firstOccs : List String → List String → List String
  | [], _ => []
  | k :: ks, seen =>
    if k ∈ seen then firstOccs ks seen else k :: firstOccs ks (k :: seen)

/-- The value of the last pair with key `k`. -/
def lastValue (k : String) (ps : List (String × String)) : Option String :=
  ((ps.filter (fun kv => kv.1 = k)).getLast?).map (fun kv => kv.2)

/-- Folding Python dict assignment over a pair list (what the header
loop does to the `headers` dict). -/
def dictOf (ps : List (String × String)) : List (String × String) :=
  ps.foldl (fun acc kv => dictInsert kv.1 kv.2 acc) []

/-- The URL constructed by the parser from a host and a path, per spec
step 7: concatenate, and prepend `https://` unless a scheme is already
present. -/
def specUrl (host path : String) : String :=
  let u := host ++ path
  if pyStartsWith u "http://" || pyStartsWith u "https://" then u
  else "https://" ++ u

/-- Does `sub` occur contiguously at some position of `l`? -/
def hasInfixAux (sub : List Char) : List Char → Bool
  | [] => sub.isEmpty
  | c :: cs => sub.isPrefixOf (c :: cs) || hasInfixAux sub cs

/-- `sub` occurs contiguously inside `s`. -/
def containsSub (s sub : String) : Bool := hasInfixAux sub.data s.data

/-! ## Helper lemmas: strings, joining, quoting -/

theorem eq_empty_iff_data (s : String) : s = "" ↔ s.data = [] :=
  ⟨fun h => h ▸ rfl, fun h => String.ext h⟩

theorem pyJoin_cons_cons (sep a b : String) (rest : List String) :
    pyJoin sep (a :: b :: rest) = a ++ sep ++ pyJoin sep (b :: rest) := rfl

theorem pyJoin_cons_ex (a : String) (rest : List String) :
    ∃ t, pyJoin " " (a :: rest) = a ++ t := by
  cases rest with
  | nil => exact ⟨"", by simp [pyJoin]⟩
  | cons b rs =>
    exact ⟨" " ++ pyJoin " " (b :: rs), by simp [pyJoin_cons_cons, String.append_assoc]⟩

theorem pyJoin_two_ex (a b : String) (rest : List String) :
    ∃ t, pyJoin " " (a :: b :: rest) = a ++ " " ++ b ++ t := by
  obtain ⟨t, ht⟩ := pyJoin_cons_ex b rest
  exact ⟨t, by simp [pyJoin_cons_cons, ht, String.append_assoc]⟩

theorem pyTruthy_some_iff (u : String) : pyTruthy (some u) = true ↔ u ≠ "" := by
  simp [pyTruthy]

theorem format_eq_ok (r : RequestData) (h : pyTruthy r.url = true) :
    kadabra_format_curl r = .ok (pyJoin " " (curlParts r)) := by
  simp [kadabra_format_curl, h]

theorem format_eq_err (r : RequestData) (h : pyTruthy r.url = false) :
    kadabra_format_curl r = .error missingURLMsg := by
  simp [kadabra_format_curl, h]

theorem format_shape (r : RequestData) (u m : String) (hu : r.url = some u)
    (hne : u ≠ "") (hm : r.method.getD "GET" = m) :
    ∃ t, kadabra_format_curl r = .ok ("curl -X " ++ m ++ " " ++ shlexQuote u ++ t) := by
  have hturl : pyTruthy r.url = true := by simp [pyTruthy, hu, hne]
  have hfmt := format_eq_ok r hturl
  have hparts : curlParts r = ("curl -X " ++ m) :: shlexQuote u ::
      (proxyParts r ++ headerParts r.headers ++ cookieParts r ++ cookieJarParts r
        ++ bodyParts r) := by
    simp [curlParts, hu, hm]
  obtain ⟨t, ht⟩ := pyJoin_two_ex ("curl -X " ++ m) (shlexQuote u)
    (proxyParts r ++ headerParts r.headers ++ cookieParts r ++ cookieJarParts r
      ++ bodyParts r)
  exact ⟨t, by rw [hfmt, hparts, ht]⟩

theorem escFold_ne_nil (l : List Char) :
    l.foldr (fun c acc => shlexEscChar c ++ acc) ['\''] ≠ [] := by
  induction l with
  | nil => simp
  | cons c cs ih => simp [List.foldr_cons, ih]

theorem escFold_getLast (l : List Char) :
    (l.foldr (fun c acc => shlexEscChar c ++ acc) ['\'']).getLast? = some '\'' := by
  induction l with
  | nil => rfl
  | cons c cs ih =>
    rw [List.foldr_cons, List.getLast?_append_of_ne_nil _ (escFold_ne_nil cs), ih]

theorem shlexQuote_data_ne_nil (s : String) : (shlexQuote s).data ≠ [] := by
  unfold shlexQuote
  split
  · decide
  · split
    · next hs _ => exact fun h => hs (String.ext h)
    · simp

theorem shlexQuote_getLast_ne_newline (s : String) :
    (shlexQuote s).data.getLast? ≠ some '\n' := by
  unfold shlexQuote
  split
  · decide
  · split
    · next hs hall =>
      intro h
      have hmem : '\n' ∈ s.data := by
        obtain ⟨hne, hlast⟩ :=
          List.mem_getLast?_eq_getLast (l := s.data) (x := '\n')
            (by simp [Option.mem_def, h])
        exact hlast ▸ List.getLast_mem hne
      have := List.all_eq_true.mp hall _ hmem
      exact absurd this (by decide)
    · have hlast :
          (String.mk ('\'' :: s.data.foldr (fun c acc => shlexEscChar c ++ acc) ['\''])).data.getLast?
            = some '\'' := by
        show (['\''] ++ s.data.foldr (fun c acc => shlexEscChar c ++ acc) ['\'']).getLast? = some '\''
        rw [List.getLast?_append_of_ne_nil _ (escFold_ne_nil s.data), escFold_getLast]
      rw [hlast]
      decide

theorem headerParts_eq (hs : List (String × String)) :
    headerParts hs =
      (hs.filter (fun kv => ¬ (pyLower kv.1 = "host" ∨ pyLower kv.1 = "cookie"))).map
        (fun kv => "-H " ++ shlexQuote (kv.1 ++ ": " ++ kv.2)) := by
  induction hs with
  | nil => rfl
  | cons kv rest ih =>
    simp only [headerParts, List.filterMap_cons, List.filter_cons] at ih ⊢
    by_cases h : pyLower kv.1 = "host" ∨ pyLower kv.1 = "cookie"
    · rcases h with h | h <;> simp [h] <;> simpa using ih
    · push_neg at h
      simp [h.1, h.2]
      simpa using ih

/-! ## Claims C8 and C9 -/

/-- C8: `kadabra_format_curl` fails with the `MissingURL` error if and
only if the record's `url` field is absent or the empty string; no other
error is possible; and on that failure no command string is returned. -/
theorem claim_C8 (r : RequestData) :
    (kadabra_format_curl r = .error missingURLMsg ↔ (r.url = none ∨ r.url = some "")) ∧
    (∀ e, kadabra_format_curl r = .error e → e = missingURLMsg) ∧
    ((r.url = none ∨ r.url = some "") → ∀ s, kadabra_format_curl r ≠ .ok s) := by
  have hval : pyTruthy r.url = false ↔ (r.url = none ∨ r.url = some "") := by
    cases hu : r.url with
    | none => simp [pyTruthy]
    | some u => by_cases h : u = "" <;> simp [pyTruthy, h]
  refine ⟨⟨fun h => ?_, fun h => ?_⟩, fun e he => ?_, fun h s hs => ?_⟩
  · by_cases ht : pyTruthy r.url = true
    · rw [format_eq_ok r ht] at h; cases h
    · exact hval.mp (by simpa using ht)
  · exact format_eq_err r (hval.mpr h)
  · by_cases ht : pyTruthy r.url = true
    · rw [format_eq_ok r ht] at he; cases he
    · rw [format_eq_err r (by simpa using ht)] at he
      exact (Except.error.injEq _ _).mp he.symm
  · rw [format_eq_err r (hval.mpr h)] at hs; cases hs

/-- Witness for C8: a record with no `url` key fails with `MissingURL`. -/
theorem claim_C8_witness :
    kadabra_format_curl { url := none } = .error missingURLMsg :=
  (claim_C8 { url := none }).1.mpr (Or.inl rfl)

/-- C9: the formatter performs no validation of `method`: when the
record has no method key the command begins with `curl -X GET`, and
whatever method string the record carries is inserted verbatim
(unescaped) between `curl -X ` and the escaped URL. -/
theorem claim_C9 (r : RequestData) (u : String) (hu : r.url = some u) (hne : u ≠ "") :
    (r.method = none → ∃ t, kadabra_format_curl r = .ok ("curl -X GET" ++ t)) ∧
    (∀ m, r.method = some m →
      ∃ t, kadabra_format_curl r = .ok ("curl -X " ++ m ++ " " ++ shlexQuote u ++ t)) := by
  constructor
  · intro hm
    obtain ⟨t, ht⟩ := format_shape r u "GET" hu hne (by simp [hm])
    have hlit : ("curl -X " ++ "GET" : String) = "curl -X GET" := by decide
    refine ⟨" " ++ (shlexQuote u ++ t), ?_⟩
    rw [ht, ← hlit]
    simp only [String.append_assoc]
  · intro m hm
    exact format_shape r u m hu hne (by simp [hm])

/-- Witness for C9: a method string with a space and a semicolon is
inserted verbatim. -/
theorem claim_C9_witness :
    ∃ t, kadabra_format_curl { method := some "FOO ;x", url := some "u" } =
      .ok ("curl -X " ++ "FOO ;x" ++ " " ++ shlexQuote "u" ++ t) :=
  (claim_C9 { method := some "FOO ;x", url := some "u" } "u" rfl (by decide)).2
    "FOO ;x" rfl

/-! ## Claims C2 and C4 -/

/-- C2: for a record whose body is set and non-whitespace, the body step
emits nothing when the trimmed body starts with an HTTP start-line
marker; otherwise it emits `-d <escaped-body>` when the body parses as
JSON and `--data-raw <escaped-body>` when it does not. -/
theorem claim_C2 (r : RequestData) (b : String) (hb : r.body = some b)
    (hnb : pyStrip b ≠ "") :
    ((∃ p ∈ http_prefixes, pyStartsWith (pyStrip b) p = true) → bodyParts r = []) ∧
    ((∀ p ∈ http_prefixes, pyStartsWith (pyStrip b) p = false) → pyJsonValid b = true →
      bodyParts r = ["-d " ++ shlexQuote b]) ∧
    ((∀ p ∈ http_prefixes, pyStartsWith (pyStrip b) p = false) → pyJsonValid b = false →
      bodyParts r = ["--data-raw " ++ shlexQuote b]) := by
  have hbne : b ≠ "" := fun h => hnb (by rw [h]; rfl)
  refine ⟨fun h1 => ?_, fun h2 hj => ?_, fun h2 hj => ?_⟩
  · have hany : http_prefixes.any (fun p => pyStartsWith (pyStrip b) p) = true := by
      obtain ⟨p, hp, hps⟩ := h1
      exact List.any_eq_true.mpr ⟨p, hp, hps⟩
    simp [bodyParts, hb, pyTruthy, hbne, hnb, hany]
  · have hany : http_prefixes.any (fun p => pyStartsWith (pyStrip b) p) = false := by
      rw [← Bool.not_eq_true, List.any_eq_true]
      rintro ⟨p, hp, hps⟩
      exact absurd hps (by rw [h2 p hp]; decide)
    simp [bodyParts, hb, pyTruthy, hbne, hnb, hany, hj]
  · have hany : http_prefixes.any (fun p => pyStartsWith (pyStrip b) p) = false := by
      rw [← Bool.not_eq_true, List.any_eq_true]
      rintro ⟨p, hp, hps⟩
      exact absurd hps (by rw [h2 p hp]; decide)
    simp [bodyParts, hb, pyTruthy, hbne, hnb, hany, hj]

/-- Witness for C2: a JSON body yields a `-d` token. -/
theorem claim_C2_witness :
    bodyParts { url := some "u", body := some "[1, 2]" } =
      ["-d " ++ shlexQuote "[1, 2]"] :=
  (claim_C2 { url := some "u", body := some "[1, 2]" } "[1, 2]" rfl
    (by decide)).2.1 (by decide) (by decide)

/-- C4: the `-H` tokens are exactly the headers whose lower-cased name is
neither `host` nor `cookie`, rendered in insertion order; a truthy
`cookies` field surfaces as the `--cookie` token; and the command string
is the space-join of the token list. -/
theorem claim_C4 (r : RequestData) :
    headerParts r.headers =
      (r.headers.filter (fun kv => ¬ (pyLower kv.1 = "host" ∨ pyLower kv.1 = "cookie"))).map
        (fun kv => "-H " ++ shlexQuote (kv.1 ++ ": " ++ kv.2)) ∧
    (∀ c, r.cookies = some c → c ≠ "" →
      cookieParts r = ["--cookie " ++ shlexQuote c]) ∧
    (pyTruthy r.url = true →
      kadabra_format_curl r = .ok (pyJoin " " (curlParts r))) := by
  refine ⟨headerParts_eq r.headers, fun c hc hcne => ?_, format_eq_ok r⟩
  simp [cookieParts, hc, pyTruthy, hcne]

/-- Witness for C4: a concrete `Cookie` value surfaces via `--cookie`. -/
theorem claim_C4_witness :
    cookieParts { url := some "u", cookies := some "a=b; c=d" } =
      ["--cookie " ++ shlexQuote "a=b; c=d"] :=
  (claim_C4 { url := some "u", cookies := some "a=b; c=d" }).2.1 "a=b; c=d" rfl
    (by decide)

/-! ## Helper lemmas: the header scan -/

theorem headerPairsOf_nil : headerPairsOf [] = [] := rfl

theorem headerPairsOf_blank (line : String) (rest : List String)
    (hb : pyStrip line = "") : headerPairsOf (line :: rest) = [] := by
  simp [headerPairsOf, headerSection, List.takeWhile_cons, hb]

theorem headerPairsOf_nocolon (line : String) (rest : List String)
    (hb : pyStrip line ≠ "") (hc : splitFirst ':' line.data = none) :
    headerPairsOf (line :: rest) = headerPairsOf rest := by
  simp [headerPairsOf, headerSection, List.takeWhile_cons, hb, List.filterMap_cons, hc]

theorem headerPairsOf_pair (line : String) (rest : List String) (k v : List Char)
    (hb : pyStrip line ≠ "") (hc : splitFirst ':' line.data = some (k, v)) :
    headerPairsOf (line :: rest) =
      (pyStrip ⟨k⟩, pyStrip ⟨v⟩) :: headerPairsOf rest := by
  simp [headerPairsOf, headerSection, List.takeWhile_cons, hb, List.filterMap_cons, hc]

theorem scanHeaders_headers (ls : List String) (st : ScanState) :
    (scanHeaders ls st).1.headers =
      (headerPairsOf ls).foldl (fun acc kv => dictInsert kv.1 kv.2 acc) st.headers := by
  induction ls generalizing st with
  | nil => simp [scanHeaders, headerPairsOf_nil]
  | cons line rest ih =>
    by_cases hb : pyStrip line = ""
    · simp [scanHeaders, hb, headerPairsOf_blank line rest hb]
    · cases hc : splitFirst ':' line.data with
      | none =>
        rw [headerPairsOf_nocolon line rest hb hc]
        simp only [scanHeaders, hc, if_neg hb]
        simp [ih]
      | some p =>
        obtain ⟨k, v⟩ := p
        rw [headerPairsOf_pair line rest k v hb hc]
        simp only [scanHeaders, hc, if_neg hb]
        rw [List.foldl_cons]
        split_ifs <;> simp [ih]

theorem scanHeaders_host (ls : List String) (st : ScanState) :
    (scanHeaders ls st).1.host = ((hostVals ls).getLast?).elim st.host some := by
  induction ls generalizing st with
  | nil => simp [scanHeaders, hostVals, headerPairsOf_nil]
  | cons line rest ih =>
    by_cases hb : pyStrip line = ""
    · simp [scanHeaders, hb, hostVals, headerPairsOf_blank line rest hb]
    · cases hc : splitFirst ':' line.data with
      | none =>
        have hv : hostVals (line :: rest) = hostVals rest := by
          simp [hostVals, headerPairsOf_nocolon line rest hb hc]
        simp only [scanHeaders, hc, if_neg hb]
        simp [ih, hv]
      | some p =>
        obtain ⟨k, v⟩ := p
        by_cases hh : pyLower (pyStrip ⟨k⟩) = "host"
        · have hv : hostVals (line :: rest) = pyStrip ⟨v⟩ :: hostVals rest := by
            simp [hostVals, headerPairsOf_pair line rest k v hb hc, List.filterMap_cons, hh]
          simp only [scanHeaders, hc, if_neg hb, if_pos hh]
          rw [hv, ih]
          cases hlast : (hostVals rest).getLast? with
          | none =>
            have hnil : hostVals rest = [] := by
              simpa [List.getLast?_eq_none_iff] using hlast
            simp [hnil]
          | some w =>
            have hne : hostVals rest ≠ [] := by
              intro h; rw [h] at hlast; cases hlast
            rw [show (pyStrip ⟨v⟩ :: hostVals rest) = [pyStrip ⟨v⟩] ++ hostVals rest
                  from rfl,
                List.getLast?_append_of_ne_nil _ hne, hlast]
            simp
        · have hv : hostVals (line :: rest) = hostVals rest := by
            simp [hostVals, headerPairsOf_pair line rest k v hb hc, List.filterMap_cons, hh]
          simp only [scanHeaders, hc, if_neg hb, if_neg hh]
          rw [hv]
          split_ifs <;> simp [ih]

/-! ## Helper lemmas: dict semantics -/

theorem dictInsert_keys (k v : String) (d : List (String × String)) :
    (dictInsert k v d).map Prod.fst =
      if k ∈ d.map Prod.fst then d.map Prod.fst else d.map Prod.fst ++ [k] := by
  induction d with
  | nil => simp [dictInsert]
  | cons kv rest ih =>
    obtain ⟨k0, v0⟩ := kv
    by_cases h : k0 = k
    · simp [dictInsert, h]
    · have hsym : ¬ k = k0 := fun hh => h hh.symm
      simp only [dictInsert, if_neg h, List.map_cons, ih]
      by_cases hm : k ∈ rest.map Prod.fst <;> simp [hm, hsym]

theorem dictInsert_lookup (k v k' : String) (d : List (String × String)) :
    lookupList k' (dictInsert k v d) =
      if k = k' then some v else lookupList k' d := by
  induction d with
  | nil => simp [dictInsert, lookupList]
  | cons kv rest ih =>
    obtain ⟨k0, v0⟩ := kv
    by_cases h : k0 = k
    · subst h
      by_cases h' : k0 = k' <;> simp [dictInsert, lookupList, h']
    · have hsym : ¬ k = k0 := fun hh => h hh.symm
      by_cases h' : k0 = k'
      · subst h'
        simp [dictInsert, if_neg h, lookupList, hsym]
      · simp [dictInsert, if_neg h, lookupList, h', ih]

theorem mem_firstOccs (x : String) (xs seen : List String) :
    x ∈ firstOccs xs seen ↔ x ∈ xs ∧ x ∉ seen := by
  induction xs generalizing seen with
  | nil => simp [firstOccs]
  | cons k ks ih =>
    by_cases hk : k ∈ seen
    · rw [firstOccs, if_pos hk, ih]
      constructor
      · rintro ⟨hks, hs⟩
        exact ⟨List.mem_cons_of_mem _ hks, hs⟩
      · rintro ⟨hx, hs⟩
        rcases List.mem_cons.mp hx with rfl | hx'
        · exact absurd hk hs
        · exact ⟨hx', hs⟩
    · rw [firstOccs, if_neg hk]
      constructor
      · intro hmem
        rcases List.mem_cons.mp hmem with rfl | hmem'
        · exact ⟨List.mem_cons_self _ _, hk⟩
        · obtain ⟨hks, hs⟩ := (ih (k :: seen)).mp hmem'
          exact ⟨List.mem_cons_of_mem _ hks,
            fun hseen => hs (List.mem_cons_of_mem _ hseen)⟩
      · rintro ⟨hx, hs⟩
        rcases List.mem_cons.mp hx with rfl | hx'
        · exact List.mem_cons_self _ _
        · by_cases hxk : x = k
          · exact hxk ▸ List.mem_cons_self _ _
          · refine List.mem_cons_of_mem _ ((ih (k :: seen)).mpr ⟨hx', ?_⟩)
            intro hmem
            rcases List.mem_cons.mp hmem with h1 | h2
            · exact hxk h1
            · exact hs h2

theorem firstOccs_append (xs : List String) (x : String) (seen : List String) :
    firstOccs (xs ++ [x]) seen =
      if x ∈ seen ∨ x ∈ xs then firstOccs xs seen
      else firstOccs xs seen ++ [x] := by
  induction xs generalizing seen with
  | nil =>
    by_cases h : x ∈ seen <;> simp [firstOccs, h]
  | cons k ks ih =>
    rw [List.cons_append]
    by_cases hk : k ∈ seen
    · rw [firstOccs, if_pos hk, ih, firstOccs, if_pos hk]
      by_cases hx1 : x ∈ seen ∨ x ∈ ks
      · rw [if_pos hx1, if_pos (Or.imp_right (List.mem_cons_of_mem _) hx1)]
      · have hcond : ¬(x ∈ seen ∨ x ∈ k :: ks) := by
          push_neg at hx1
          rintro (h1 | h2)
          · exact hx1.1 h1
          · rcases List.mem_cons.mp h2 with rfl | h3
            · exact hx1.1 hk
            · exact hx1.2 h3
        rw [if_neg hx1, if_neg hcond]
    · rw [firstOccs, if_neg hk, ih, firstOccs, if_neg hk]
      by_cases hx1 : x ∈ k :: seen ∨ x ∈ ks
      · have hcond : x ∈ seen ∨ x ∈ k :: ks := by
          rcases hx1 with h1 | h2
          · rcases List.mem_cons.mp h1 with rfl | h3
            · exact Or.inr (List.mem_cons_self _ _)
            · exact Or.inl h3
          · exact Or.inr (List.mem_cons_of_mem _ h2)
        rw [if_pos hx1, if_pos hcond]
      · have hcond : ¬(x ∈ seen ∨ x ∈ k :: ks) := by
          push_neg at hx1
          rintro (h1 | h2)
          · exact hx1.1 (List.mem_cons_of_mem _ h1)
          · rcases List.mem_cons.mp h2 with rfl | h3
            · exact hx1.1 (List.mem_cons_self _ _)
            · exact hx1.2 h3
        rw [if_neg hx1, if_neg hcond, List.cons_append]

theorem dictOf_append (ps : List (String × String)) (p : String × String) :
    dictOf (ps ++ [p]) = dictInsert p.1 p.2 (dictOf ps) := by
  simp [dictOf, List.foldl_append]

theorem dictOf_keys (ps : List (String × String)) :
    (dictOf ps).map Prod.fst = firstOccs (ps.map Prod.fst) [] := by
  induction ps using List.reverseRecOn with
  | nil => rfl
  | append_singleton qs p ih =>
    rw [dictOf_append, dictInsert_keys, ih, List.map_append]
    simp only [List.map_cons, List.map_nil]
    rw [firstOccs_append]
    by_cases h : p.1 ∈ qs.map Prod.fst
    · rw [if_pos ((mem_firstOccs _ _ _).mpr (by simp [h])),
        if_pos (by simp [h])]
    · rw [if_neg (fun hmem => h ((mem_firstOccs _ _ _).mp hmem).1),
        if_neg (by simp [h])]

theorem dictOf_lookup (ps : List (String × String)) (k : String) :
    lookupList k (dictOf ps) = lastValue k ps := by
  induction ps using List.reverseRecOn with
  | nil => rfl
  | append_singleton qs p ih =>
    rw [dictOf_append, dictInsert_lookup, ih]
    by_cases h : p.1 = k
    · rw [if_pos h, lastValue, List.filter_append,
        List.getLast?_append_of_ne_nil _ (by simp [List.filter_cons, h])]
      simp [List.filter_cons, h]
    · rw [if_neg h, lastValue, lastValue, List.filter_append,
        show List.filter (fun kv => decide (kv.1 = k)) [p] = [] by
          simp [List.filter_cons, h],
        List.append_nil]

/-! ## Helper lemmas: the parse paths -/

theorem splitOnChar_ne_nil (c : Char) (l : List Char) : splitOnChar c l ≠ [] := by
  induction l with
  | nil => simp [splitOnChar]
  | cons x xs ih =>
    by_cases h : x = c
    · simp [splitOnChar, h]
    · simp only [splitOnChar, if_neg h]
      cases hs : splitOnChar c xs with
      | nil => simp
      | cons y ys => simp

theorem linesOf_ne_nil (raw : String) : linesOf raw ≠ [] := by
  simp [linesOf, splitOnChar_ne_nil]

theorem partsOf_strip_ne (raw : String) (h2 : ¬ (partsOf raw).length < 2) :
    pyStrip ((linesOf raw).headD "") ≠ "" := by
  intro h
  have hp : partsOf raw = [] := by rw [partsOf, h]; rfl
  rw [hp] at h2
  simp at h2

theorem parse_after_guards (raw : String) (h2 : ¬ (partsOf raw).length < 2)
    (hv : pyUpper ((partsOf raw).headD "") ∈ VALID_METHODS) :
    alakazam_parse_request raw =
      if ¬ pyTruthy (scanHeaders ((linesOf raw).drop 1) {}).1.host = true then
        .error .MissingHost
      else
        .ok { method := some (pyUpper ((partsOf raw).headD ""))
              url := some (specUrl
                ((scanHeaders ((linesOf raw).drop 1) {}).1.host.getD "")
                (((partsOf raw).drop 1).headD ""))
              headers := (scanHeaders ((linesOf raw).drop 1) {}).1.headers
              body :=
                if pyStrip (pyJoin "\n" (scanHeaders ((linesOf raw).drop 1) {}).2) ≠ "" then
                  some (pyJoin "\n" (scanHeaders ((linesOf raw).drop 1) {}).2)
                else none
              cookies :=
                if pyTruthy (scanHeaders ((linesOf raw).drop 1) {}).1.cookies = true then
                  (scanHeaders ((linesOf raw).drop 1) {}).1.cookies
                else none
              proxy :=
                if pyTruthy (scanHeaders ((linesOf raw).drop 1) {}).1.proxy = true then
                  (scanHeaders ((linesOf raw).drop 1) {}).1.proxy
                else none
              cookie_jar := none } := by
  have hne : pyStrip ((linesOf raw).headD "") ≠ "" := partsOf_strip_ne raw h2
  have hcond1 :
      ¬ (((linesOf raw).isEmpty || decide (pyStrip ((linesOf raw).headD "") = "")) = true) := by
    simp only [Bool.or_eq_true, decide_eq_true_eq]
    push_neg
    refine ⟨by simp [linesOf_ne_nil raw], ?_⟩
    simpa [List.headD_eq_head?_getD] using hne
  simp only [alakazam_parse_request]
  rw [show List.map (fun l => ({ data := l } : String))
        (splitWS (pyStrip ((linesOf raw).headD "")).data) = partsOf raw from rfl]
  rw [if_neg hcond1, if_neg h2, if_neg (by simpa using hv)]
  simp only [specUrl]

theorem dropWhile_head_false {p : Char → Bool} :
    ∀ (l : List Char) (c : Char) (t : List Char), l.dropWhile p = c :: t → p c = false := by
  intro l
  induction l with
  | nil => intro c t h; cases h
  | cons x xs ih =>
    intro c t h
    by_cases hx : p x
    · rw [List.dropWhile_cons_of_pos hx] at h
      exact ih c t h
    · rw [List.dropWhile_cons_of_neg hx] at h
      cases h
      simpa using hx

theorem pyStripList_eq_nil_iff (l : List Char) :
    pyStripList l = [] ↔ ∀ x ∈ l, pyIsSpace x = true := by
  unfold pyStripList
  rw [List.reverse_eq_nil_iff, List.dropWhile_eq_nil_iff]
  constructor
  · intro hall x hx
    have hsplit := List.takeWhile_append_dropWhile pyIsSpace (l := l)
    rcases List.mem_append.mp (by rw [hsplit]; exact hx) with h1 | h2
    · exact List.mem_takeWhile_imp h1
    · exact hall x (List.mem_reverse.mpr h2)
  · intro hall x hx
    exact hall x ((List.dropWhile_sublist pyIsSpace).subset (List.mem_reverse.mp hx))

theorem pyStripList_head (l : List Char) (h : pyStripList l ≠ []) :
    ∃ c t, pyStripList l = c :: t ∧ pyIsSpace c = false := by
  cases hdc : l.dropWhile pyIsSpace with
  | nil =>
    exfalso
    apply h
    unfold pyStripList
    rw [hdc]
    rfl
  | cons c rest =>
    have hc : pyIsSpace c = false := dropWhile_head_false l c rest hdc
    obtain ⟨s, hs⟩ := List.dropWhile_suffix (l := (l.dropWhile pyIsSpace).reverse) pyIsSpace
    have hd : l.dropWhile pyIsSpace =
        ((l.dropWhile pyIsSpace).reverse.dropWhile pyIsSpace).reverse ++ s.reverse := by
      have := congrArg List.reverse hs
      rw [List.reverse_append, List.reverse_reverse] at this
      exact this.symm
    cases he : ((l.dropWhile pyIsSpace).reverse.dropWhile pyIsSpace).reverse with
    | nil =>
      exfalso
      apply h
      unfold pyStripList
      exact he
    | cons c' t' =>
      refine ⟨c', t', he, ?_⟩
      rw [he, hdc] at hd
      injection hd with h1 h2
      rw [← h1]
      exact hc

theorem splitOnChar_headD (c : Char) (l : List Char) :
    (splitOnChar c l).headD [] = l.takeWhile (fun x => x ≠ c) := by
  induction l with
  | nil => rfl
  | cons x xs ih =>
    by_cases h : x = c
    · simp [splitOnChar, h, List.takeWhile_cons]
    · cases hs : splitOnChar c xs with
      | nil => exact absurd hs (splitOnChar_ne_nil c xs)
      | cons y ys =>
        have hy : y = xs.takeWhile (fun x => x ≠ c) := by
          rw [← ih, hs]
          rfl
        simp [splitOnChar, h, hs, List.takeWhile_cons, hy]

theorem linesOf_headD (raw : String) :
    (linesOf raw).headD "" = ⟨(pyStripList raw.data).takeWhile (fun x => x ≠ '\n')⟩ := by
  rw [linesOf, ← splitOnChar_headD]
  cases hs : splitOnChar '\n' (pyStripList raw.data) with
  | nil => exact absurd hs (splitOnChar_ne_nil _ _)
  | cons y ys => rfl

theorem strip_headD_ne (raw : String) (h : pyStrip raw ≠ "") :
    pyStrip ((linesOf raw).headD "") ≠ "" := by
  have hm : pyStripList raw.data ≠ [] := by
    intro hh
    exact h (by rw [pyStrip, hh])
  obtain ⟨c, t, heq, hc⟩ := pyStripList_head raw.data hm
  rw [linesOf_headD, heq]
  have hcn : c ≠ '\n' := by
    intro hcc
    rw [hcc] at hc
    exact absurd hc (by decide)
  intro hcontra
  rw [pyStrip, eq_empty_iff_data] at hcontra
  have hcontra' :
      pyStripList (List.takeWhile (fun x => decide (x ≠ '\n')) (c :: t)) = [] := hcontra
  rw [List.takeWhile_cons, decide_eq_true hcn, if_pos rfl] at hcontra'
  rw [pyStripList_eq_nil_iff] at hcontra'
  have hcs := hcontra' c (List.mem_cons_self _ _)
  rw [hcs] at hc
  cases hc

theorem guard1_false (raw : String) (hl : pyStrip ((linesOf raw).headD "") ≠ "") :
    ¬ (((linesOf raw).isEmpty || decide (pyStrip ((linesOf raw).headD "") = "")) = true) := by
  simp only [Bool.or_eq_true, decide_eq_true_eq]
  push_neg
  refine ⟨by simp [linesOf_ne_nil raw], ?_⟩
  simpa [List.headD_eq_head?_getD] using hl

theorem parse_empty_iff (raw : String) :
    alakazam_parse_request raw = .error .EmptyInput ↔ pyStrip raw = "" := by
  constructor
  · intro h
    by_contra hne
    have hl := strip_headD_ne raw hne
    simp only [alakazam_parse_request] at h
    rw [if_neg (guard1_false raw hl)] at h
    split_ifs at h <;> simp at h
  · intro h
    have hlines : linesOf raw = [""] := by
      rw [linesOf, show pyStripList raw.data = [] from (by rwa [pyStrip, eq_empty_iff_data] at h)]
      rfl
    simp only [alakazam_parse_request, hlines]
    rw [if_pos (by decide)]

theorem parse_malformed (raw : String) (hne : pyStrip raw ≠ "")
    (hlt : (partsOf raw).length < 2) :
    alakazam_parse_request raw =
      .error (.MalformedRequestLine (pyStrip ((linesOf raw).headD ""))) := by
  have hl := strip_headD_ne raw hne
  simp only [alakazam_parse_request]
  rw [show List.map (fun l => ({ data := l } : String))
        (splitWS (pyStrip ((linesOf raw).headD "")).data) = partsOf raw from rfl]
  rw [if_neg (guard1_false raw hl), if_pos hlt]

theorem parse_invalid_method (raw : String) (h2 : ¬ (partsOf raw).length < 2)
    (hv : pyUpper ((partsOf raw).headD "") ∉ VALID_METHODS) :
    alakazam_parse_request raw =
      .error (.InvalidMethod (invalidMethodMsg (pyUpper ((partsOf raw).headD "")))) := by
  have hl := partsOf_strip_ne raw h2
  simp only [alakazam_parse_request]
  rw [show List.map (fun l => ({ data := l } : String))
        (splitWS (pyStrip ((linesOf raw).headD "")).data) = partsOf raw from rfl]
  rw [if_neg (guard1_false raw hl), if_neg h2, if_pos (by simpa using hv)]

theorem hasInfixAux_append_left (sub pre l : List Char)
    (h : hasInfixAux sub l = true) : hasInfixAux sub (pre ++ l) = true := by
  induction pre with
  | nil => simpa using h
  | cons c cs ih =>
    rw [List.cons_append, hasInfixAux]
    rw [Bool.or_eq_true]
    exact Or.inr ih

/-! ## Claims C7 and C6 -/

/-- C7: parsing fails with `EmptyInput` if and only if the input trimmed
of surrounding whitespace is empty; otherwise, when the first line
splits into fewer than 2 whitespace-separated tokens, parsing fails with
`MalformedRequestLine`. -/
theorem claim_C7 (raw : String) :
    (alakazam_parse_request raw = .error .EmptyInput ↔ pyStrip raw = "") ∧
    (pyStrip raw ≠ "" → (partsOf raw).length < 2 →
      alakazam_parse_request raw =
        .error (.MalformedRequestLine (pyStrip ((linesOf raw).headD "")))) :=
  ⟨parse_empty_iff raw, fun hne hlt => parse_malformed raw hne hlt⟩

/-- Witness for C7: the empty input and a one-token request line. -/
theorem claim_C7_witness :
    alakazam_parse_request "" = .error .EmptyInput ∧
    alakazam_parse_request "GET" =
      .error (.MalformedRequestLine (pyStrip ((linesOf "GET").headD ""))) :=
  ⟨(claim_C7 "").1.mpr rfl, (claim_C7 "GET").2 (by decide) (by decide)⟩

/-- C6: with at least 2 request-line tokens, parsing fails with an
`InvalidMethod` error iff the upper-cased first token is not in the
allow-list; the error message is unique and enumerates every valid
method; and on success the stored method is the upper-cased first
token. -/
theorem claim_C6 (raw : String) (h2 : 2 ≤ (partsOf raw).length) :
    ((∃ msg, alakazam_parse_request raw = .error (.InvalidMethod msg)) ↔
      pyUpper ((partsOf raw).headD "") ∉ VALID_METHODS) ∧
    (∀ msg, alakazam_parse_request raw = .error (.InvalidMethod msg) →
      msg = invalidMethodMsg (pyUpper ((partsOf raw).headD ""))) ∧
    (∀ r, alakazam_parse_request raw = .ok r →
      r.method = some (pyUpper ((partsOf raw).headD ""))) ∧
    (∀ m, m ∈ VALID_METHODS →
      containsSub (invalidMethodMsg (pyUpper ((partsOf raw).headD ""))) m = true) := by
  have h2' : ¬ (partsOf raw).length < 2 := by omega
  refine ⟨⟨?_, ?_⟩, ?_, ?_, ?_⟩
  · rintro ⟨msg, hmsg⟩ hv
    rw [parse_after_guards raw h2' hv] at hmsg
    split at hmsg <;> simp at hmsg
  · intro hv
    exact ⟨_, parse_invalid_method raw h2' hv⟩
  · intro msg hmsg
    by_cases hv : pyUpper ((partsOf raw).headD "") ∈ VALID_METHODS
    · rw [parse_after_guards raw h2' hv] at hmsg
      split at hmsg <;> simp at hmsg
    · rw [parse_invalid_method raw h2' hv] at hmsg
      simp only [Except.error.injEq, ParseError.InvalidMethod.injEq] at hmsg
      exact hmsg.symm
  · intro r hr
    by_cases hv : pyUpper ((partsOf raw).headD "") ∈ VALID_METHODS
    · rw [parse_after_guards raw h2' hv] at hr
      split at hr
      · simp at hr
      · simp only [Except.ok.injEq] at hr
        rw [← hr]
    · rw [parse_invalid_method raw h2' hv] at hr
      simp at hr
  · intro m hm
    fin_cases hm <;>
    · rw [containsSub, invalidMethodMsg]
      simp only [String.data_append]
      simp only [List.append_assoc]
      apply hasInfixAux_append_left
      apply hasInfixAux_append_left
      decide

/-- Witness for C6: an unknown method fails with `InvalidMethod`, whose
message mentions `GET`. -/
theorem claim_C6_witness :
    (∃ msg, alakazam_parse_request "FOO / HTTP/1.1" = .error (.InvalidMethod msg)) ∧
    containsSub (invalidMethodMsg (pyUpper ((partsOf "FOO / HTTP/1.1").headD "")))
      "GET" = true :=
  ⟨(claim_C6 "FOO / HTTP/1.1" (by decide)).1.mpr (by decide),
   (claim_C6 "FOO / HTTP/1.1" (by decide)).2.2.2 "GET" (by decide)⟩

theorem scanHeaders_host_init (ls : List String) :
    (scanHeaders ls {}).1.host = (hostVals ls).getLast? := by
  rw [scanHeaders_host]
  cases (hostVals ls).getLast? <;> rfl

theorem parse_ok_record (raw : String) (r : RequestData)
    (h : alakazam_parse_request raw = .ok r) :
    pyTruthy (scanHeaders ((linesOf raw).drop 1) {}).1.host = true ∧
    r = { method := some (pyUpper ((partsOf raw).headD ""))
          url := some (specUrl ((scanHeaders ((linesOf raw).drop 1) {}).1.host.getD "")
                        (((partsOf raw).drop 1).headD ""))
          headers := (scanHeaders ((linesOf raw).drop 1) {}).1.headers
          body :=
            if pyStrip (pyJoin "\n" (scanHeaders ((linesOf raw).drop 1) {}).2) ≠ "" then
              some (pyJoin "\n" (scanHeaders ((linesOf raw).drop 1) {}).2)
            else none
          cookies :=
            if pyTruthy (scanHeaders ((linesOf raw).drop 1) {}).1.cookies = true then
              (scanHeaders ((linesOf raw).drop 1) {}).1.cookies
            else none
          proxy :=
            if pyTruthy (scanHeaders ((linesOf raw).drop 1) {}).1.proxy = true then
              (scanHeaders ((linesOf raw).drop 1) {}).1.proxy
            else none
          cookie_jar := none } := by
  have hne : pyStrip raw ≠ "" := by
    intro hemp
    rw [(parse_empty_iff raw).mpr hemp] at h
    cases h
  have h2' : ¬ (partsOf raw).length < 2 := by
    intro hlt
    rw [parse_malformed raw hne hlt] at h
    cases h
  have hv : pyUpper ((partsOf raw).headD "") ∈ VALID_METHODS := by
    by_contra hvc
    rw [parse_invalid_method raw h2' hvc] at h
    cases h
  rw [parse_after_guards raw h2' hv] at h
  split at h
  · cases h
  · next hcond =>
    have hhost := not_not.mp hcond
    simp only [Except.ok.injEq] at h
    exact ⟨hhost, h.symm⟩

theorem specUrl_ne_empty (host path : String) (h : host ≠ "") :
    specUrl host path ≠ "" := by
  simp only [specUrl]
  split
  · intro hc
    rw [eq_empty_iff_data, String.data_append] at hc
    exact h ((eq_empty_iff_data host).mpr (List.append_eq_nil.mp hc).1)
  · intro hc
    rw [eq_empty_iff_data, String.data_append] at hc
    exact absurd (List.append_eq_nil.mp hc).1 (by decide)

/-! ## Claim C3 (corrected) -/

/-- Counterexample to C3 as stated: on `"GET / HTTP/1.1\nHost:"` a
case-insensitive `Host` header line IS found among the header lines
(its pair appears in the header pairs, and `hostVals` is non-empty),
yet parsing still fails with `MissingHost`, because the header's
trimmed value is empty and Python's `if not host:` treats `""` as
missing. -/
theorem claim_C3_counterexample :
    alakazam_parse_request "GET / HTTP/1.1\nHost:" = .error .MissingHost ∧
    hostVals ((linesOf "GET / HTTP/1.1\nHost:").drop 1) ≠ [] ∧
    ("Host", "") ∈ requestHeaderPairs "GET / HTTP/1.1\nHost:" := by
  refine ⟨by decide, by decide, by decide⟩

/-- C3 (amended): for inputs whose request line parses and whose method
is valid, parsing fails with `MissingHost` if and only if either no
case-insensitive `Host` header line occurs before the first blank line,
or the last such line carries an empty (after trimming) value. -/
theorem claim_C3_amended (raw : String) (h2 : 2 ≤ (partsOf raw).length)
    (hv : pyUpper ((partsOf raw).headD "") ∈ VALID_METHODS) :
    alakazam_parse_request raw = .error .MissingHost ↔
      ((hostVals ((linesOf raw).drop 1)).getLast? = none ∨
       (hostVals ((linesOf raw).drop 1)).getLast? = some "") := by
  have h2' : ¬ (partsOf raw).length < 2 := by omega
  have hval : (¬ pyTruthy ((hostVals ((linesOf raw).drop 1)).getLast?) = true) ↔
      ((hostVals ((linesOf raw).drop 1)).getLast? = none ∨
       (hostVals ((linesOf raw).drop 1)).getLast? = some "") := by
    cases ho : (hostVals ((linesOf raw).drop 1)).getLast? with
    | none => simp [pyTruthy]
    | some u => by_cases hu : u = "" <;> simp [pyTruthy, hu]
  rw [← hval, parse_after_guards raw h2' hv]
  constructor
  · intro h
    split at h
    · next hcond => rwa [scanHeaders_host_init] at hcond
    · cases h
  · intro h
    rw [if_pos (by rwa [scanHeaders_host_init])]

/-- Witness for the amended C3: a request with no `Host` header at all
fails with `MissingHost`. -/
theorem claim_C3_witness :
    alakazam_parse_request "GET / HTTP/1.1\nAccept: a" = .error .MissingHost :=
  (claim_C3_amended "GET / HTTP/1.1\nAccept: a" (by decide) (by decide)).mpr
    (by decide)

/-! ## Claims C5 and C10 -/

/-- C5: on success the url is the (last) `Host` value concatenated with
the request-line path, with `https://` prepended exactly when the
concatenation does not already start with `http://` or `https://`
(this case split is `specUrl`), and the url is never empty. -/
theorem claim_C5 (raw : String) (r : RequestData)
    (h : alakazam_parse_request raw = .ok r) :
    ∃ host, (hostVals ((linesOf raw).drop 1)).getLast? = some host ∧ host ≠ "" ∧
      r.url = some (specUrl host (((partsOf raw).drop 1).headD "")) ∧
      ∀ u, r.url = some u → u ≠ "" := by
  obtain ⟨hhost, hrec⟩ := parse_ok_record raw r h
  rw [scanHeaders_host_init] at hhost
  cases hval : (hostVals ((linesOf raw).drop 1)).getLast? with
  | none => rw [hval] at hhost; simp [pyTruthy] at hhost
  | some host =>
    have hhne : host ≠ "" := by
      rw [hval] at hhost
      simpa [pyTruthy] using hhost
    have hscan : (scanHeaders ((linesOf raw).drop 1) {}).1.host = some host := by
      rw [scanHeaders_host_init, hval]
    have hurl : r.url = some (specUrl host (((partsOf raw).drop 1).headD "")) := by
      rw [hrec]
      rw [show ({ method := some (pyUpper ((partsOf raw).headD ""))
                  url := some (specUrl ((scanHeaders ((linesOf raw).drop 1) {}).1.host.getD "")
                                (((partsOf raw).drop 1).headD ""))
                  headers := (scanHeaders ((linesOf raw).drop 1) {}).1.headers
                  body :=
                    if pyStrip (pyJoin "\n" (scanHeaders ((linesOf raw).drop 1) {}).2) ≠ "" then
                      some (pyJoin "\n" (scanHeaders ((linesOf raw).drop 1) {}).2)
                    else none
                  cookies :=
                    if pyTruthy (scanHeaders ((linesOf raw).drop 1) {}).1.cookies = true then
                      (scanHeaders ((linesOf raw).drop 1) {}).1.cookies
                    else none
                  proxy :=
                    if pyTruthy (scanHeaders ((linesOf raw).drop 1) {}).1.proxy = true then
                      (scanHeaders ((linesOf raw).drop 1) {}).1.proxy
                    else none
                  cookie_jar := none } : RequestData).url
              = some (specUrl ((scanHeaders ((linesOf raw).drop 1) {}).1.host.getD "")
                  (((partsOf raw).drop 1).headD "")) from rfl]
      rw [hscan]
      rfl
    refine ⟨host, rfl, hhne, hurl, ?_⟩
    intro u hu
    rw [hurl] at hu
    injection hu with hu'
    rw [← hu']
    exact specUrl_ne_empty _ _ hhne

/-- Witness for C5 at a concrete request. -/
theorem claim_C5_witness :
    ∃ host, (hostVals ((linesOf "GET /p HTTP/1.1\nHost: h").drop 1)).getLast? = some host ∧
      host ≠ "" ∧
      ({ method := some "GET", url := some "https://h/p",
         headers := [("Host", "h")] } : RequestData).url =
        some (specUrl host (((partsOf "GET /p HTTP/1.1\nHost: h").drop 1).headD "")) ∧
      ∀ u, ({ method := some "GET", url := some "https://h/p",
              headers := [("Host", "h")] } : RequestData).url = some u → u ≠ "" :=
  claim_C5 "GET /p HTTP/1.1\nHost: h"
    { method := some "GET", url := some "https://h/p", headers := [("Host", "h")] }
    (by decide)

/-- C10: duplicate exactly-cased header names keep one entry, at the
first occurrence's position, holding the last occurrence's value;
differently-cased names stay separate.  Formally: the keys of the
resulting headers mapping are the first occurrences of the scanned pair
names in order, and looking any name up yields the last value scanned
for exactly that name. -/
theorem claim_C10 (raw : String) (r : RequestData)
    (h : alakazam_parse_request raw = .ok r) :
    r.headers.map Prod.fst = firstOccs ((requestHeaderPairs raw).map Prod.fst) [] ∧
    ∀ k, lookupList k r.headers = lastValue k (requestHeaderPairs raw) := by
  obtain ⟨hhost, hrec⟩ := parse_ok_record raw r h
  have hheaders : r.headers = dictOf (requestHeaderPairs raw) := by
    rw [hrec]
    show (scanHeaders ((linesOf raw).drop 1) {}).1.headers = _
    rw [scanHeaders_headers]
    rfl
  rw [hheaders]
  exact ⟨dictOf_keys _, fun k => dictOf_lookup _ k⟩

/-- Witness for C10: duplicated `A` keeps first position and last value;
`a` stays separate. -/
theorem claim_C10_witness :
    ({ method := some "GET", url := some "https://h/",
       headers := [("Host", "h"), ("A", "3"), ("a", "2")] } : RequestData).headers.map
        Prod.fst =
      firstOccs ((requestHeaderPairs "GET / HTTP/1.1\nHost: h\nA: 1\na: 2\nA: 3").map
        Prod.fst) [] ∧
    lookupList "A"
        ({ method := some "GET", url := some "https://h/",
           headers := [("Host", "h"), ("A", "3"), ("a", "2")] } : RequestData).headers =
      lastValue "A" (requestHeaderPairs "GET / HTTP/1.1\nHost: h\nA: 1\na: 2\nA: 3") := by
  have hmain := claim_C10 "GET / HTTP/1.1\nHost: h\nA: 1\na: 2\nA: 3"
    { method := some "GET", url := some "https://h/",
      headers := [("Host", "h"), ("A", "3"), ("a", "2")] }
    (by decide)
  exact ⟨hmain.1, hmain.2 "A"⟩

/-! ## Helper lemmas: last-character analysis for C1 -/

theorem getLast?_ne_of_not_mem {α : Type} (l : List α) (c : α) (h : c ∉ l) :
    l.getLast? ≠ some c := by
  intro hl
  obtain ⟨hne, heq⟩ :=
    List.mem_getLast?_eq_getLast (l := l) (x := c) (by simp [Option.mem_def, hl])
  exact h (heq ▸ List.getLast_mem hne)

theorem toUpper_ne_newline (c : Char) (h : pyIsSpace c = false) :
    Char.toUpper c ≠ '\n' := by
  intro hup
  simp only [Char.toUpper] at hup
  split at hup
  · next hcond =>
    obtain ⟨m, hm⟩ : ∃ m, c.toNat - 32 = m := ⟨_, rfl⟩
    rw [hm] at hup
    have h1 : 65 ≤ m := by omega
    have h2 : m ≤ 90 := by omega
    interval_cases m <;> exact absurd hup (by decide)
  · rw [hup] at h
    exact absurd h (by decide)

theorem splitWSAux_no_space (l : List Char) :
    ∀ (acc : List Char), (∀ c ∈ acc, pyIsSpace c = false) →
      ∀ w ∈ splitWSAux l acc, ∀ c ∈ w, pyIsSpace c = false := by
  induction l with
  | nil =>
    intro acc hacc w hw c hc
    simp only [splitWSAux] at hw
    split at hw
    · simp at hw
    · rw [List.mem_singleton.mp hw] at hc
      exact hacc c (List.mem_reverse.mp hc)
  | cons x xs ih =>
    intro acc hacc w hw c hc
    simp only [splitWSAux] at hw
    by_cases hx : pyIsSpace x
    · rw [if_pos hx] at hw
      split at hw
      · exact ih [] (by simp) w hw c hc
      · rcases List.mem_cons.mp hw with rfl | hw'
        · exact hacc c (List.mem_reverse.mp hc)
        · exact ih [] (by simp) w hw' c hc
    · rw [if_neg hx] at hw
      refine ih (x :: acc) ?_ w hw c hc
      intro c' hc'
      rcases List.mem_cons.mp hc' with rfl | hc''
      · simpa using hx
      · exact hacc c' hc''

theorem splitWS_no_space (l : List Char) (w : List Char) (hw : w ∈ splitWS l)
    (c : Char) (hc : c ∈ w) : pyIsSpace c = false :=
  splitWSAux_no_space l [] (by simp) w hw c hc

theorem append_str_getLast (a m : String) (ha : a.data ≠ [])
    (ha' : a.data.getLast? ≠ some '\n') (hm : '\n' ∉ m.data) :
    (a ++ m).data ≠ [] ∧ (a ++ m).data.getLast? ≠ some '\n' := by
  rw [String.data_append]
  refine ⟨by simp [ha], ?_⟩
  cases hmd : m.data with
  | nil => rw [List.append_nil]; exact ha'
  | cons c cs =>
    rw [hmd] at hm
    rw [List.getLast?_append_of_ne_nil _ (by simp)]
    exact getLast?_ne_of_not_mem _ _ hm

theorem part_append_quote (a s : String) :
    (a ++ shlexQuote s).data ≠ [] ∧ (a ++ shlexQuote s).data.getLast? ≠ some '\n' := by
  rw [String.data_append]
  refine ⟨by simp [shlexQuote_data_ne_nil s], ?_⟩
  rw [List.getLast?_append_of_ne_nil _ (shlexQuote_data_ne_nil s)]
  exact shlexQuote_getLast_ne_newline s

theorem pyJoin_data_ne_nil (parts : List String) (hne : parts ≠ [])
    (hall : ∀ p ∈ parts, p.data ≠ []) : (pyJoin " " parts).data ≠ [] := by
  cases parts with
  | nil => exact absurd rfl hne
  | cons a rest =>
    cases rest with
    | nil => exact hall a (List.mem_cons_self _ _)
    | cons b rs =>
      rw [pyJoin_cons_cons, String.data_append]
      have := hall a (List.mem_cons_self _ _)
      simp [String.data_append, this]

theorem pyJoin_getLast_ne_newline (parts : List String) (hne : parts ≠ [])
    (hall : ∀ p ∈ parts, p.data ≠ [] ∧ p.data.getLast? ≠ some '\n') :
    (pyJoin " " parts).data.getLast? ≠ some '\n' := by
  induction parts with
  | nil => exact absurd rfl hne
  | cons a rest ih =>
    cases rest with
    | nil => exact (hall a (List.mem_cons_self _ _)).2
    | cons b rs =>
      rw [pyJoin_cons_cons, String.data_append]
      have hJne : (pyJoin " " (b :: rs)).data ≠ [] :=
        pyJoin_data_ne_nil _ (by simp)
          (fun p hp => (hall p (List.mem_cons_of_mem _ hp)).1)
      rw [List.getLast?_append_of_ne_nil _ hJne]
      exact ih (by simp) (fun p hp => hall p (List.mem_cons_of_mem _ hp))

theorem tail_parts_prop (r : RequestData) (p : String)
    (hp : p ∈ proxyParts r ∨ p ∈ headerParts r.headers ∨ p ∈ cookieParts r ∨
      p ∈ cookieJarParts r ∨ p ∈ bodyParts r) :
    p.data ≠ [] ∧ p.data.getLast? ≠ some '\n' := by
  rcases hp with hp | hp | hp | hp | hp
  · unfold proxyParts at hp
    split at hp
    · rw [List.mem_singleton.mp hp]
      exact part_append_quote _ _
    · simp at hp
  · rw [headerParts_eq] at hp
    obtain ⟨kv, _, hkv⟩ := List.mem_map.mp hp
    rw [← hkv]
    exact part_append_quote _ _
  · unfold cookieParts at hp
    split at hp
    · rw [List.mem_singleton.mp hp]
      exact part_append_quote _ _
    · simp at hp
  · unfold cookieJarParts at hp
    split at hp
    · rw [List.mem_singleton.mp hp]
      exact part_append_quote _ _
    · simp at hp
  · simp only [bodyParts] at hp
    split at hp
    · split at hp
      · split at hp
        · rw [List.mem_singleton.mp hp]
          exact part_append_quote _ _
        · rw [List.mem_singleton.mp hp]
          exact part_append_quote _ _
      · simp at hp
    · simp at hp

theorem parse_ok_url (raw : String) (r : RequestData)
    (h : alakazam_parse_request raw = .ok r) :
    ∃ u, r.url = some u ∧ u ≠ "" ∧
      r.method = some (pyUpper ((partsOf raw).headD "")) := by
  obtain ⟨hhost, hrec⟩ := parse_ok_record raw r h
  rw [scanHeaders_host_init] at hhost
  cases hval : (hostVals ((linesOf raw).drop 1)).getLast? with
  | none => rw [hval] at hhost; simp [pyTruthy] at hhost
  | some host =>
    have hhne : host ≠ "" := by
      rw [hval] at hhost
      simpa [pyTruthy] using hhost
    have hscan : (scanHeaders ((linesOf raw).drop 1) {}).1.host = some host := by
      rw [scanHeaders_host_init, hval]
    refine ⟨specUrl host (((partsOf raw).drop 1).headD ""), ?_,
      specUrl_ne_empty _ _ hhne, ?_⟩
    · rw [hrec]
      show some (specUrl ((scanHeaders ((linesOf raw).drop 1) {}).1.host.getD "")
          (((partsOf raw).drop 1).headD "")) = _
      rw [hscan]
      rfl
    · rw [hrec]

/-! ## Claim C1 -/

/-- C1: for every successfully parsed record, format succeeds and the
result is the single space-join of the token list in the order method,
url, proxy, headers, cookies, cookie-jar, body; it starts with
`curl -X <METHOD> ` followed by the shell-escaped url, and its last
character is not a newline. -/
theorem claim_C1 (raw : String) (r : RequestData)
    (h : alakazam_parse_request raw = .ok r) :
    ∃ m u s, r.method = some m ∧ r.url = some u ∧
      kadabra_format_curl r = .ok s ∧
      s = pyJoin " " (["curl -X " ++ m, shlexQuote u] ++ proxyParts r ++
            headerParts r.headers ++ cookieParts r ++ cookieJarParts r ++ bodyParts r) ∧
      (∃ t, s = "curl -X " ++ m ++ " " ++ shlexQuote u ++ t) ∧
      s.data.getLast? ≠ some '\n' := by
  obtain ⟨u, hurl, hune, hmethod⟩ := parse_ok_url raw r h
  have hturl : pyTruthy r.url = true := by simp [pyTruthy, hurl, hune]
  have hfmt := format_eq_ok r hturl
  have hparts : curlParts r =
      ["curl -X " ++ pyUpper ((partsOf raw).headD ""), shlexQuote u] ++
        proxyParts r ++ headerParts r.headers ++ cookieParts r ++ cookieJarParts r ++
        bodyParts r := by
    simp [curlParts, hmethod, hurl]
  have htok : ∀ c ∈ ((partsOf raw).headD "").data, pyIsSpace c = false := by
    cases hps : partsOf raw with
    | nil =>
      intro c hc
      simp at hc
    | cons t0 ts =>
      intro c hc
      have ht0 : t0 ∈ partsOf raw := by
        rw [hps]
        exact List.mem_cons_self _ _
      rw [partsOf] at ht0
      obtain ⟨w, hw, hweq⟩ := List.mem_map.mp ht0
      have hdata : t0.data = w := by rw [← hweq]
      rw [List.headD_cons, hdata] at hc
      exact splitWS_no_space _ w hw c hc
  have hmnl : '\n' ∉ (pyUpper ((partsOf raw).headD "")).data := by
    intro hmem
    obtain ⟨c, hc, hceq⟩ := List.mem_map.mp
      (show '\n' ∈ ((partsOf raw).headD "").data.map Char.toUpper from hmem)
    exact toUpper_ne_newline c (htok c hc) hceq
  have hpart0 : ("curl -X " ++ pyUpper ((partsOf raw).headD "")).data ≠ [] ∧
      ("curl -X " ++ pyUpper ((partsOf raw).headD "")).data.getLast? ≠ some '\n' :=
    append_str_getLast _ _ (by decide) (by decide) hmnl
  refine ⟨pyUpper ((partsOf raw).headD ""), u, pyJoin " " (curlParts r),
    hmethod, hurl, hfmt, ?_, ?_, ?_⟩
  · rw [hparts]
  · obtain ⟨t, ht⟩ := format_shape r u (pyUpper ((partsOf raw).headD "")) hurl hune
      (by rw [hmethod]; rfl)
    rw [hfmt] at ht
    injection ht with ht'
    exact ⟨t, ht'⟩
  · apply pyJoin_getLast_ne_newline
    · rw [hparts]
      simp
    · intro p hp
      rw [hparts] at hp
      simp only [List.cons_append, List.nil_append, List.mem_cons, List.mem_append,
        List.not_mem_nil, or_false] at hp
      rcases hp with rfl | rfl | (((hp | hp) | hp) | hp) | hp
      · exact hpart0
      · exact ⟨shlexQuote_data_ne_nil u, shlexQuote_getLast_ne_newline u⟩
      · exact tail_parts_prop r p (Or.inl hp)
      · exact tail_parts_prop r p (Or.inr (Or.inl hp))
      · exact tail_parts_prop r p (Or.inr (Or.inr (Or.inl hp)))
      · exact tail_parts_prop r p (Or.inr (Or.inr (Or.inr (Or.inl hp))))
      · exact tail_parts_prop r p (Or.inr (Or.inr (Or.inr (Or.inr hp))))

/-- Witness for C1 at a concrete request. -/
theorem claim_C1_witness :
    ∃ m u s,
      ({ method := some "GET", url := some "https://e.com/a",
         headers := [("Host", "e.com")] } : RequestData).method = some m ∧
      ({ method := some "GET", url := some "https://e.com/a",
         headers := [("Host", "e.com")] } : RequestData).url = some u ∧
      kadabra_format_curl
        { method := some "GET", url := some "https://e.com/a",
          headers := [("Host", "e.com")] } = .ok s ∧
      s = pyJoin " " (["curl -X " ++ m, shlexQuote u] ++
            proxyParts { method := some "GET", url := some "https://e.com/a",
                         headers := [("Host", "e.com")] } ++
            headerParts [("Host", "e.com")] ++
            cookieParts { method := some "GET", url := some "https://e.com/a",
                          headers := [("Host", "e.com")] } ++
            cookieJarParts { method := some "GET", url := some "https://e.com/a",
                             headers := [("Host", "e.com")] } ++
            bodyParts { method := some "GET", url := some "https://e.com/a",
                        headers := [("Host", "e.com")] }) ∧
      (∃ t, s = "curl -X " ++ m ++ " " ++ shlexQuote u ++ t) ∧
      s.data.getLast? ≠ some '\n' :=
  claim_C1 "GET /a HTTP/1.1\nHost: e.com"
    { method := some "GET", url := some "https://e.com/a",
      headers := [("Host", "e.com")] }
    (by decide)
